import Mathlib

/-!
Verification of `flake8-importlinter` (a Flake8 plugin wrapping import-linter).

The embedding below translates, directly from the source:

* `src/flake8_importlinter/plugin.py` — the methods `_extract_violations`,
  `_get_line_number_from_violation`, `_get_module_name` of `ImportLinterPlugin`
  and the relevant control flow of `run`;
* `src/tests/fixtures/mock_importlinter.py` — the fixture classes
  `MockViolation`, `MockContractCheck`, `MockContract`, `MockReport` that
  replicate import-linter's report model.

Python strings are Lean `String`s; filesystem paths are modelled as lists of
path components (absolute, as produced by `os.path` on already-normalised
POSIX paths, so that `os.path.relpath`, `dirname`, `basename` become list
operations); Python `None`-or-value attributes are `Option`s, where `none`
stands for an attribute that is absent or `None` (the plugin only ever reads
these attributes behind `hasattr`/`is not None` guards, or — for
`violation.imported` — on objects where the attribute exists).
-/

/-! ### Python string primitives

`startswith` / `endswith` are Python's `str.startswith` / `str.endswith`
(plain character prefix/suffix tests). -/

/-- Python `s.startswith(pre)`. -/
def startswith (s pre : String) : Bool :=
  pre.data.isPrefixOf s.data

/-- Python `s.endswith(suf)`. -/
def endswith (s suf : String) : Bool :=
  suf.data.isSuffixOf s.data

/-! ### The regular expressions of `plugin.py`

`plugin.py` uses two regexes: `re.search(r"\(l\.(\d+)\)", s)` (lines 228 and
266) and `re.search(r"-> ([\w\.]+)", s)` (line 231).  Both are embedded as
leftmost-match scanners over the character list.  For `\(l\.(\d+)\)`,
backtracking cannot produce a different result than "maximal digit run
followed by `)`": shortening the greedy `\d+` leaves a digit, not `)`, as the
next character.  `\w` is embedded as ASCII `[A-Za-z0-9_]` (module names in
this repository are ASCII). -/

/-- Value of an ASCII digit character. -/
def digitVal (c : Char) : Nat := c.toNat - 48

/-- The number denoted by a list of decimal digit characters, most significant
first (Python `int(...)` on the matched group). -/
def digitsToNat (ds : List Char) : Nat :=
  ds.foldl (fun a c => 10 * a + digitVal c) 0

/-- Try to match `\(l\.(\d+)\)` at the head of the character list; on success
return the number denoted by the digits. -/
def matchLineAt (cs : List Char) : Option Nat :=
  match cs with
  | c1 :: c2 :: c3 :: rest =>
    if c1 = '(' ∧ c2 = 'l' ∧ c3 = '.' then
      let ds := rest.takeWhile Char.isDigit
      if ds.isEmpty then none
      else
        match rest.drop ds.length with
        | c4 :: _ => if c4 = ')' then some (digitsToNat ds) else none
        | [] => none
    else none
  | _ => none

/-- Leftmost match of `\(l\.(\d+)\)` (the scan of `re.search`). -/
def searchLine : List Char → Option Nat
  | [] => none
  | c :: rest =>
    match matchLineAt (c :: rest) with
    | some n => some n
    | none => searchLine rest

/-- `re.search(r"\(l\.(\d+)\)", s)`, returning `int(match.group(1))`. -/
def regexSearchLineNum (s : String) : Option Nat :=
  searchLine s.data

/-- Character class `[\w\.]` (ASCII). -/
def isWordDot (c : Char) : Bool :=
  c.isAlphanum || c == '_' || c == '.'

/-- Try to match `-> ([\w\.]+)` at the head of the character list; on success
return the matched group. -/
def matchImportedAt (cs : List Char) : Option (List Char) :=
  match cs with
  | c1 :: c2 :: c3 :: rest =>
    if c1 = '-' ∧ c2 = '>' ∧ c3 = ' ' then
      let ws := rest.takeWhile isWordDot
      if ws.isEmpty then none else some ws
    else none
  | _ => none

/-- Leftmost match of `-> ([\w\.]+)`. -/
def searchImported : List Char → Option (List Char)
  | [] => none
  | c :: rest =>
    match matchImportedAt (c :: rest) with
    | some w => some w
    | none => searchImported rest

/-- `re.search(r"-> ([\w\.]+)", s)`, returning `match.group(1)`. -/
def regexSearchImported (s : String) : Option String :=
  (searchImported s.data).map String.mk

/-! ### Violation objects as `_extract_violations` sees them

The plugin is duck-typed over violation objects (`plugin.py` lines 201–234):
it probes `importer`, `higher_layer`, `lower_layer`, `line_number`,
`line_numbers` with `hasattr`, and falls back on `str(violation)`.  A
violation is therefore embedded as a record of optional attributes plus its
string representation.  `none` = attribute absent or `None` (both fail the
code's `hasattr ... and ... == / is not None` guards alike). -/

structure Violation where
  importer : Option String
  imported : Option String
  higher_layer : Option String
  lower_layer : Option String
  line_number : Option Nat
  line_numbers : Option (List (Option Nat))
  str_repr : String
deriving DecidableEq

/-- Python's f-string rendering of an optional attribute (`None` prints as
`"None"`). -/
def pyShowOpt : Option String → String
  | some s => s
  | none => "None"

/-- `ImportLinterPlugin._get_line_number_from_violation` (plugin.py 241–271):
try the `line_number` attribute, then the first element of `line_numbers`,
then the `\(l\.(\d+)\)` regex on `str(violation)`, and default to line 1. -/
def get_line_number_from_violation (v : Violation) : Option Nat :=
  match v.line_number with
  | some n => some n
  | none =>
    match v.line_numbers with
    | some (some n :: _) => some n
    | _ =>
      match regexSearchLineNum v.str_repr with
      | some n => some n
      | none => some 1

/-- The first line number recoverable from the `line_numbers` attribute
(used to state hypotheses about provenance-free violations). -/
def firstOfLineNumbers (v : Violation) : Option Nat :=
  match v.line_numbers with
  | some (some n :: _) => some n
  | _ => none

/-! ### The report model (`tests/fixtures/mock_importlinter.py`)

`MockContract`, `MockContractCheck`, `MockReport` replicate import-linter's
`Contract`/`ContractCheck`/`Report` shapes as the plugin consumes them.
`MockContractCheck.metadata` is the Python property returning
`{"violations": self.violations}`; since the plugin reads exactly
`check.metadata.get("violations", [])`, the dictionary is embedded as the
violations list it carries. -/

structure MockContract where
  name : String
  type : String
deriving DecidableEq

structure MockContractCheck where
  kept : Bool
  violations : List Violation
  warnings : List String
deriving DecidableEq

/-- The `metadata` property of `MockContractCheck`: the plugin reads
`check.metadata.get("violations", [])`, i.e. exactly this list. -/
def MockContractCheck.metadata (c : MockContractCheck) : List Violation :=
  c.violations

structure MockReport where
  contract_checks : List (MockContract × MockContractCheck)
deriving DecidableEq

/-- `MockReport.get_contracts_and_checks` returns the stored pairs. -/
def MockReport.get_contracts_and_checks (r : MockReport) :
    List (MockContract × MockContractCheck) :=
  r.contract_checks

/-- `MockReport.contains_failures = any(not check.kept for _, check in ...)`. -/
def MockReport.contains_failures (r : MockReport) : Bool :=
  r.contract_checks.any (fun p => !p.2.kept)

/-- `MockViolation` (mock_importlinter.py 9–20): importer, imported and a
line number. -/
structure MockViolation where
  importer : String
  imported : String
  line_number : Nat
deriving DecidableEq

/-- `MockViolation.__str__`:
`f"{self.importer} -> {self.imported} (l.{self.line_number})"`.
`natDecimal` below renders the decimal numeral exactly as Python's
`str(int)` does. -/
def natDecimalAux : Nat → Nat → List Char
  | 0, _ => []
  | _ + 1, 0 => []
  | fuel + 1, n + 1 =>
    natDecimalAux fuel ((n + 1) / 10) ++ [Nat.digitChar ((n + 1) % 10)]

/-- Decimal numeral of a natural number (Python `str(int)`). -/
def natDecimal (n : Nat) : List Char :=
  if n = 0 then ['0'] else natDecimalAux n n

def MockViolation.strOf (v : MockViolation) : String :=
  v.importer ++ " -> " ++ v.imported ++ " (l." ++ String.mk (natDecimal v.line_number) ++ ")"

/-- The duck-typed view of a `MockViolation` (the mock constructor also sets
`line_contents` and `line_numbers = (line_number,) if line_number else None`;
`line_contents` is never read by the plugin). -/
def MockViolation.toViolation (v : MockViolation) : Violation :=
  ⟨some v.importer, some v.imported, none, none, some v.line_number,
   if v.line_number ≠ 0 then some [some v.line_number] else none,
   MockViolation.strOf v⟩

/-! ### `_extract_violations` (plugin.py 170–239)

The per-violation loop body (lines 201–234) becomes `processViolation`:
branch 1 handles violations with a matching `importer` attribute, branch 2
(the `elif`) violations with `higher_layer`/`lower_layer` attributes, and —
only when neither branch appended an entry (`violation_found` stays false) —
the string-representation fallback runs.  Note the `elif`: when the
`importer` attribute exists but differs from `module_name`, control falls
to the layers branch. -/

/-- The string-representation fallback (plugin.py 227–234). -/
def fallbackEntries (module_name : String) (v : Violation) : List (Nat × String) :=
  if startswith v.str_repr (module_name ++ " ->") then
    match regexSearchLineNum v.str_repr with
    | some ln =>
      [(ln, "Forbidden import of " ++
        (match regexSearchImported v.str_repr with
         | some w => w
         | none => "unknown module"))]
    | none => []
  else []

/-- The entries one violation contributes for `module_name`
(loop body, plugin.py 201–234).  `if ln ≠ 0` is Python's truthiness test
`if line_num:` on the returned int. -/
def processViolation (module_name : String) (v : Violation) : List (Nat × String) :=
  if v.importer = some module_name then
    match get_line_number_from_violation v with
    | some ln =>
      if ln ≠ 0 then
        [(ln, "Forbidden import of " ++ pyShowOpt v.imported)]
      else fallbackEntries module_name v
    | none => fallbackEntries module_name v
  else
    match v.higher_layer, v.lower_layer with
    | some hl, some ll =>
      if startswith module_name hl then
        match get_line_number_from_violation v with
        | some ln =>
          if ln ≠ 0 then
            [(ln, "Illegal import from higher layer " ++ module_name ++
              " to lower layer " ++ ll)]
          else fallbackEntries module_name v
        | none => fallbackEntries module_name v
      else fallbackEntries module_name v
    | _, _ => fallbackEntries module_name v

/-- `ImportLinterPlugin._extract_violations` (plugin.py 170–239): for each
non-kept check, collect the per-module entries of its violations in order;
keep `(contract.name, entries)` only when entries is non-empty. -/
def extract_violations (report : MockReport) (module_name : String) :
    List (String × List (Nat × String)) :=
  report.get_contracts_and_checks.filterMap (fun p =>
    if p.2.kept then none
    else
      let module_violations := (p.2.metadata.map (processViolation module_name)).flatten
      if module_violations.isEmpty then none
      else some (p.1.name, module_violations))

/-! ### Filenames and `_get_module_name` (plugin.py 136–168)

Paths are lists of components of absolute, normalised POSIX paths (no `""`,
`"."` or `".."` components in the inputs the theorems quantify over).  On
such inputs `os.path.relpath(path, start)` is: drop the common component
prefix, then one `".."` per remaining `start` component, then the rest of
`path` (`"."` when nothing remains); `os.path.dirname`/`os.path.basename`
are `dropLast`/last component; Python's
`os.path.dirname(rel_path).split(os.sep)` yields `[""]` for a file directly
under the root, which the loop's `if part` filter discards exactly as the
empty `dropLast` list does here. -/

/-- Length of the common component prefix of two paths. -/
def commonPrefixLen : List String → List String → Nat
  | a :: as, b :: bs => if a = b then commonPrefixLen as bs + 1 else 0
  | _, _ => 0

/-- `os.path.relpath(path, start)` on absolute normalised paths, as
components. -/
def relpath (path start : List String) : List String :=
  let c := commonPrefixLen path start
  let rel := List.replicate (start.length - c) ".." ++ path.drop c
  if rel.isEmpty then ["."] else rel

/-- `os.path.basename` of a path given as components (also the last
component of the whole filename string). -/
def lastComponent (p : List String) : String :=
  p.getLast?.getD ""

/-- `rel_path.startswith("..")` on the joined string: with non-empty
components, the joined string starts with `".."` exactly when the first
component does. -/
def startswithParent (rel : List String) : Bool :=
  match rel.head? with
  | some c => startswith c ".."
  | none => false

/-- Index of the last `'.'` in a character list (Python `rfind('.')`). -/
def lastDotSep : List Char → Option Nat
  | [] => none
  | c :: rest =>
    match lastDotSep rest with
    | some i => some (i + 1)
    | none => if c = '.' then some 0 else none

/-- `os.path.splitext` on a basename (no separators): split at the last
`'.'` unless every character before it is itself a `'.'` (which covers the
`sepIndex > 0` requirement: an empty prefix is all dots). -/
def splitext (b : String) : String × String :=
  match lastDotSep b.data with
  | none => (b, "")
  | some sep =>
    if (b.data.take sep).all (· == '.') then (b, "")
    else (String.mk (b.data.take sep), String.mk (b.data.drop sep))

/-- `ImportLinterPlugin._get_module_name` (plugin.py 136–168): `None` unless
the filename ends in `.py`; `None` when the relative path from the project
root starts with `".."`; otherwise the dotted join of the relative directory
components that are non-empty and not dot-prefixed, plus — unless the
basename is `__init__.py` — the basename without its extension. -/
def get_module_name (filename project_root : List String) : Option String :=
  if endswith (lastComponent filename) ".py" = false then
    none
  else
    let rel_path := relpath filename project_root
    if startswithParent rel_path = true then
      none
    else
      let path_parts := rel_path.dropLast
      let module_parts :=
        path_parts.filter (fun part => (part != "") && (!(startswith part ".")))
      let basename := lastComponent filename
      let all_parts :=
        if basename != "__init__.py" then module_parts ++ [(splitext basename).1]
        else module_parts
      some (String.intercalate "." all_parts)

/-! ### `run` (plugin.py 73–134)

Two aspects of `run` are embedded.  `run_yields` is the success path from
line 83 and lines 111–124: the `.py` check, the early return on a falsy
module name (`None` or `""`), and the `IMP001` formatting of the extracted
violations.  `run_model` is the `try`/`except`/`finally` skeleton around
`sys.path` (lines 96–134): the original path is saved, the project root is
prepended when absent, the body (reading options, creating the report,
extracting violations — any of which may raise, and which may itself change
`sys.path`) runs, a raised exception becomes the single `IMP000` diagnostic,
and the `finally` clause restores the saved path unconditionally.  The model
covers an execution consumed to completion past the save point, so the
`finally` clause is guaranteed to run. -/

/-- Diagnostics of the success path of `run` for one file (plugin.py 83,
111–124): `(line, column, message)` triples. -/
def run_yields (filename project_root : List String) (report : MockReport) :
    List (Nat × Nat × String) :=
  if endswith (lastComponent filename) ".py" = false then []
  else
    match get_module_name filename project_root with
    | none => []
    | some module_name =>
      if module_name == "" then []
      else
        ((extract_violations report module_name).map (fun p =>
          p.2.map (fun q => (q.1, 0, "IMP001 " ++ p.1 ++ ": " ++ q.2)))).flatten

/-- The `sys.path` discipline of `run` (plugin.py 96–134).  `body` abstracts
everything inside the `try` after the insertion (it receives the modified
path and either returns diagnostics or raises); the result pairs the yielded
diagnostics with the final value of `sys.path`. -/
def run_model (sys_path : List String) (project_root_dir : String)
    (body : List String → Except String (List (Nat × Nat × String))) :
    List (Nat × Nat × String) × List String :=
  match body (if sys_path.contains project_root_dir then sys_path
              else project_root_dir :: sys_path) with
  | Except.ok diags => (diags, sys_path)
  | Except.error e =>
    ([(1, 0, "IMP000 Error running import-linter: " ++ e)], sys_path)

/-! ## Helper lemmas -/

theorem startswith_eq_false_of_head {s : String} {a : Char} {l : List Char}
    (hdata : s.data = a :: l) {b : Char} {t : String} (hpre : t.data = b :: ['.'])
    (hb : a ≠ b) : startswith s t = false := by
  unfold startswith
  rw [hdata, hpre]
  show (b == a && List.isPrefixOf ['.'] l) = false
  have : (b == a) = false := by
    cases hba : b == a
    · rfl
    · exact absurd (eq_of_beq hba).symm hb
  rw [this, Bool.false_and]

theorem head_ne_dot_of_startswith_dot_false {s : String} {a : Char} {l : List Char}
    (hdata : s.data = a :: l) (h : startswith s "." = false) : a ≠ '.' := by
  intro ha
  unfold startswith at h
  rw [hdata, ha] at h
  simp [List.isPrefixOf] at h

theorem startswith_dotdot_false {s : String} {a : Char} {l : List Char}
    (hdata : s.data = a :: l) (ha : a ≠ '.') : startswith s ".." = false := by
  refine startswith_eq_false_of_head hdata ?_ (fun h => ha h)
  rfl

theorem data_ne_nil_of_ne_empty {s : String} (h : s ≠ "") : s.data ≠ [] := by
  intro hd
  exact h (String.ext hd)

theorem startswith_append_of_prefix (s pre : String)
    (h : ∃ t, pre.data ++ t = s.data) : startswith s pre = true := by
  unfold startswith
  rw [List.isPrefixOf_iff_prefix]
  exact h

theorem endswith_append (s t : String) : endswith (s ++ t) t = true := by
  unfold endswith
  rw [String.data_append, List.isSuffixOf_iff_suffix]
  exact List.suffix_append _ _

theorem ne_true_eq_false {b : Bool} (h : b ≠ true) : b = false := by
  cases b
  · rfl
  · exact absurd rfl h

theorem map_fst_filterMap_sublist {α β γ : Type} (f : α → Option (γ × β)) (g : α → γ)
    (h : ∀ a p, f a = some p → p.1 = g a) (l : List α) :
    ((l.filterMap f).map Prod.fst).Sublist (l.map g) := by
  induction l with
  | nil => simp
  | cons a l ih =>
    rw [List.filterMap_cons, List.map_cons]
    cases hfa : f a with
    | none => exact ih.cons _
    | some p =>
      rw [List.map_cons, h a p hfa]
      exact ih.cons₂ _

/-! ## Claims -/

/-- C6: `Report.contains_failures` is true iff some contract check has
`kept = false`; in particular it is false when all checks are kept and false
for a report with no checks at all (the iff makes both special cases
immediate, since the existential is then false). -/
theorem claim_C6_contains_failures_iff (r : MockReport) :
    r.contains_failures = true ↔
      ∃ p ∈ r.get_contracts_and_checks, p.2.kept = false := by
  unfold MockReport.contains_failures MockReport.get_contracts_and_checks
  rw [List.any_eq_true]
  simp

/-- C5: `_extract_violations` is a deterministic pure function of the
report's observable contents and the module name: two reports whose
`get_contracts_and_checks` agree yield equal results (the embedding is a
pure function, so no invocation mutates the report). -/
theorem claim_C5_deterministic (r1 r2 : MockReport) (m : String)
    (h : r1.get_contracts_and_checks = r2.get_contracts_and_checks) :
    extract_violations r1 m = extract_violations r2 m := by
  unfold extract_violations
  rw [h]

theorem claim_C5_deterministic_witness :
    extract_violations
        ⟨[(⟨"Forbidden Contract", "forbidden"⟩,
           ⟨false, [MockViolation.toViolation ⟨"a.b", "c.d", 3⟩], []⟩)]⟩ "a.b" =
      extract_violations
        ⟨[(⟨"Forbidden Contract", "forbidden"⟩,
           ⟨false, [MockViolation.toViolation ⟨"a.b", "c.d", 3⟩], []⟩)]⟩ "a.b" :=
  claim_C5_deterministic _ _ _ rfl

/-- C9: the `sys.path` discipline of `run`: once an execution is consumed to
completion past the save point, the `finally` clause restores `sys.path` to
its initial value — whatever the body did (returned diagnostics or raised),
and whether or not the project root had to be inserted. -/
theorem claim_C9_sys_path_restored (sys_path : List String) (root : String)
    (body : List String → Except String (List (Nat × Nat × String))) :
    (run_model sys_path root body).2 = sys_path := by
  unfold run_model
  cases body (if sys_path.contains root then sys_path else root :: sys_path) <;> rfl

/-- C7: `get_contracts_and_checks` returns the pairs in the order the report
was built with, and `_extract_violations` preserves that relative order among
the contracts it reports on: the output's contract names form a sublist of
the report's contract names. -/
theorem claim_C7_report_ordering (l : List (MockContract × MockContractCheck)) (m : String) :
    (MockReport.mk l).get_contracts_and_checks = l ∧
    ((extract_violations (MockReport.mk l) m).map Prod.fst).Sublist
      (l.map (fun p => p.1.name)) := by
  refine ⟨rfl, ?_⟩
  unfold extract_violations
  apply map_fst_filterMap_sublist
  intro a p hp
  simp only at hp
  split at hp
  · exact absurd hp (by simp)
  · split at hp
    · exact absurd hp (by simp)
    · cases hp
      rfl

/-- C2: when no line number is determinable from a violation — no non-null
`line_number` attribute, no non-null first element of `line_numbers`, no
`(l.N)` pattern in its string representation —
`_get_line_number_from_violation` returns 1 (never `None`), and consequently
a matching-importer violation is still reported, at line 1, not dropped. -/
theorem claim_C2_line_number_default (v : Violation)
    (h1 : v.line_number = none)
    (h2 : firstOfLineNumbers v = none)
    (h3 : regexSearchLineNum v.str_repr = none) :
    get_line_number_from_violation v = some 1 ∧
    ∀ m, v.importer = some m →
      processViolation m v = [(1, "Forbidden import of " ++ pyShowOpt v.imported)] := by
  have hline : get_line_number_from_violation v = some 1 := by
    unfold get_line_number_from_violation
    unfold firstOfLineNumbers at h2
    rw [h1]
    rcases hv : v.line_numbers with _ | ls
    · rw [h3]
    · rw [hv] at h2
      rcases ls with _ | ⟨hd, tl⟩
      · rw [h3]
      · rcases hd with _ | k
        · rw [h3]
        · simp at h2
  refine ⟨hline, ?_⟩
  intro m hm
  unfold processViolation
  rw [if_pos hm, hline]
  simp

theorem claim_C2_line_number_default_witness :
    get_line_number_from_violation ⟨some "a.b", some "c.d", none, none, none, none, "a.b imports c.d"⟩ = some 1 ∧
    ∀ m, (Violation.mk (some "a.b") (some "c.d") none none none none "a.b imports c.d").importer = some m →
      processViolation m ⟨some "a.b", some "c.d", none, none, none, none, "a.b imports c.d"⟩ =
        [(1, "Forbidden import of " ++ pyShowOpt (some "c.d"))] :=
  claim_C2_line_number_default ⟨some "a.b", some "c.d", none, none, none, none, "a.b imports c.d"⟩
    rfl rfl (by decide)

/-- The shape of a layers-contract violation for a lower-layer module
importing a higher-layer module, as the plugin's layers branch expects it:
`higher_layer`/`lower_layer` attributes and line provenance.  Built from the
integration fixture: `mypackage.low.module_c` imports
`mypackage.high.module_a` (line 3 of `module_c.py`). -/
def layersViolation : Violation :=
  ⟨none, none, some "mypackage.high", some "mypackage.low", some 3, some [some 3],
   "Layer violation: mypackage.low.module_c imports mypackage.high.module_a"⟩

def layersReport : MockReport :=
  ⟨[(⟨"Layers Contract", "layers"⟩, ⟨false, [layersViolation], []⟩)]⟩

/-- C1: evaluation of `_extract_violations` at the layers violation of the
integration fixture.  For the lower-layer importer `mypackage.low.module_c`
— the module the claim (and the repository's own layers integration test)
expects the diagnostic for — the result is empty; instead, a module of the
*higher* layer receives an entry whose message calls the (legal)
higher-to-lower direction illegal. -/
theorem claim_C1_layers_attribution_eval :
    extract_violations layersReport "mypackage.low.module_c" = [] ∧
    extract_violations layersReport "mypackage.high.module_a" =
      [("Layers Contract",
        [(3, "Illegal import from higher layer mypackage.high.module_a to lower layer mypackage.low")])] := by
  constructor <;> rfl

/-- C4 counterexample: a layers-shaped violation produces an entry for a
module that neither matches an `importer` attribute nor matches the
string-representation fallback — refuting the claim that those two cases are
the only ways an entry arises. -/
theorem claim_C4_counterexample :
    processViolation "mypackage.high.module_a" layersViolation =
      [(3, "Illegal import from higher layer mypackage.high.module_a to lower layer mypackage.low")] ∧
    layersViolation.importer ≠ some "mypackage.high.module_a" ∧
    startswith layersViolation.str_repr ("mypackage.high.module_a" ++ " ->") = false := by
  refine ⟨rfl, by decide, by decide⟩

/-- C4 amended: every entry `_extract_violations` produces for `module_name`
comes from a violation that (i) carries `importer = module_name`, or (ii) is
a layers-shaped violation (`higher_layer`/`lower_layer` attributes) with
`module_name` starting with its `higher_layer`, or (iii) has a string
representation starting with `"module_name ->"`; violations satisfying none
of these yield no entry. -/
theorem claim_C4_per_module_filtering (m : String) (v : Violation)
    (h : processViolation m v ≠ []) :
    v.importer = some m ∨
    (∃ hl ll, v.higher_layer = some hl ∧ v.lower_layer = some ll ∧
       startswith m hl = true) ∨
    startswith v.str_repr (m ++ " ->") = true := by
  by_contra hcon
  push_neg at hcon
  obtain ⟨h1, h2, h3⟩ := hcon
  apply h
  have hfb : fallbackEntries m v = [] := by
    unfold fallbackEntries
    simp [ne_true_eq_false h3]
  unfold processViolation
  rw [if_neg h1]
  rcases hhl : v.higher_layer with _ | hl
  · rcases hll : v.lower_layer with _ | ll
    · exact hfb
    · exact hfb
  · rcases hll : v.lower_layer with _ | ll
    · exact hfb
    · have hsw : startswith m hl = false := ne_true_eq_false (h2 hl ll hhl hll)
      simp [hsw, hfb]

theorem claim_C4_per_module_filtering_witness :
    (MockViolation.toViolation ⟨"mypackage.module", "forbidden.module", 10⟩).importer =
        some "mypackage.module" ∨
    (∃ hl ll,
       (MockViolation.toViolation ⟨"mypackage.module", "forbidden.module", 10⟩).higher_layer = some hl ∧
       (MockViolation.toViolation ⟨"mypackage.module", "forbidden.module", 10⟩).lower_layer = some ll ∧
       startswith "mypackage.module" hl = true) ∨
    startswith (MockViolation.toViolation ⟨"mypackage.module", "forbidden.module", 10⟩).str_repr
        ("mypackage.module" ++ " ->") = true :=
  claim_C4_per_module_filtering "mypackage.module"
    (MockViolation.toViolation ⟨"mypackage.module", "forbidden.module", 10⟩) (by decide)

/-- C3 counterexample: for a file under the project root inside a
dot-prefixed directory, the returned module name is not the relative path
with separators turned to dots — the dot-prefixed component is omitted. -/
theorem claim_C3_counterexample :
    get_module_name ["home", "proj", ".venv", "mod.py"] ["home", "proj"] = some "mod" ∧
    get_module_name ["home", "proj", ".venv", "mod.py"] ["home", "proj"] ≠ some ".venv.mod" := by
  refine ⟨rfl, by decide⟩

/-! ## Path lemmas for `_get_module_name` -/

theorem commonPrefixLen_append (xs ys : List String) :
    commonPrefixLen (xs ++ ys) xs = xs.length := by
  induction xs with
  | nil => cases ys <;> rfl
  | cons a l ih => simp [commonPrefixLen, ih]

theorem relpath_append (root rest : List String) (h : rest ≠ []) :
    relpath (root ++ rest) root = rest := by
  simp only [relpath]
  rw [commonPrefixLen_append, Nat.sub_self, List.replicate_zero, List.nil_append,
      List.drop_left]
  cases rest with
  | nil => exact absurd rfl h
  | cons a l => rfl

theorem startswithParent_cons (c : String) (rest : List String) :
    startswithParent (c :: rest) = startswith c ".." := rfl

theorem lastDotSep_append_of_some {ys : List Char} {i : Nat} (hy : lastDotSep ys = some i) :
    ∀ xs, lastDotSep (xs ++ ys) = some (xs.length + i) := by
  intro xs
  induction xs with
  | nil => simpa using hy
  | cons c l ih =>
    have hstep : lastDotSep ((c :: l) ++ ys) =
        match lastDotSep (l ++ ys) with
        | some j => some (j + 1)
        | none => if c = '.' then some 0 else none := rfl
    rw [hstep, ih]
    show some (l.length + i + 1) = some ((c :: l).length + i)
    rw [List.length_cons]
    congr 1
    omega

theorem splitext_concat (stem : String) (h1 : stem ≠ "") (h2 : startswith stem "." = false) :
    splitext (stem ++ ".py") = (stem, ".py") := by
  have hne : stem.data ≠ [] := data_ne_nil_of_ne_empty h1
  obtain ⟨a, l, hdata⟩ : ∃ a l, stem.data = a :: l := by
    cases hd : stem.data with
    | nil => exact absurd hd hne
    | cons a l => exact ⟨a, l, rfl⟩
  have ha : a ≠ '.' := head_ne_dot_of_startswith_dot_false hdata h2
  unfold splitext
  have hdot : lastDotSep (stem ++ ".py").data = some stem.data.length := by
    rw [String.data_append]
    have h0 : lastDotSep (".py" : String).data = some 0 := rfl
    simpa using lastDotSep_append_of_some h0 stem.data
  rw [hdot]
  have htake : ((stem ++ ".py").data.take stem.data.length) = stem.data := by
    rw [String.data_append]
    exact List.take_left _ _
  have hbeq : (a == '.') = false := by
    cases hc : a == '.'
    · rfl
    · exact absurd (eq_of_beq hc) ha
  have hall : stem.data.all (fun c => c == '.') = false := by
    rw [hdata, List.all_cons, hbeq, Bool.false_and]
  have hdrop : ((stem ++ ".py").data.drop stem.data.length) = (".py" : String).data := by
    rw [String.data_append]
    exact List.drop_left _ _
  simp [htake, hall, hdrop]

theorem get_module_name_concat (root dirs : List String) (b : String)
    (hb : endswith b ".py" = true)
    (hhead : startswithParent (dirs ++ [b]) = false) :
    get_module_name (root ++ (dirs ++ [b])) root =
      some (String.intercalate "."
        ((dirs.filter (fun part => (part != "") && (!(startswith part ".")))) ++
         (if b != "__init__.py" then [(splitext b).1] else []))) := by
  have hlast : lastComponent (root ++ (dirs ++ [b])) = b := by
    unfold lastComponent
    rw [← List.append_assoc, List.getLast?_concat]
    rfl
  have hrel : relpath (root ++ (dirs ++ [b])) root = dirs ++ [b] :=
    relpath_append _ _ (by simp)
  simp only [get_module_name, hlast, hb, hrel, hhead, List.dropLast_concat]
  by_cases hbi : b = "__init__.py"
  · simp [hbi]
  · have hbne : (b != "__init__.py") = true := bne_iff_ne.mpr hbi
    simp [hbne]

/-- C3 amended: for a `.py` file under the project root (given as root
components plus relative directory components and a basename), the returned
module name is the relative path with separators turned into dots and the
extension removed, where relative directory components that are empty or
dot-prefixed are omitted, and an `__init__.py` basename is dropped entirely.
The hypotheses pin the ordinary case: no component of the relative path
starts with `".."` (the file is inside the root) and the stem is a regular
name (non-empty, not dot-prefixed, not `__init__`). -/
theorem claim_C3_module_name_mapping (root dirs : List String) (stem : String)
    (hdirs : ∀ d ∈ dirs, startswith d ".." = false)
    (h1 : stem ≠ "") (h2 : startswith stem "." = false) (h3 : stem ≠ "__init__") :
    get_module_name (root ++ dirs ++ [stem ++ ".py"]) root =
      some (String.intercalate "."
        ((dirs.filter (fun part => (part != "") && (!(startswith part ".")))) ++ [stem])) ∧
    get_module_name (root ++ dirs ++ ["__init__.py"]) root =
      some (String.intercalate "."
        (dirs.filter (fun part => (part != "") && (!(startswith part "."))))) := by
  have hne : stem.data ≠ [] := data_ne_nil_of_ne_empty h1
  obtain ⟨a, l, hdata⟩ : ∃ a l, stem.data = a :: l := by
    cases hd : stem.data with
    | nil => exact absurd hd hne
    | cons a l => exact ⟨a, l, rfl⟩
  have ha : a ≠ '.' := head_ne_dot_of_startswith_dot_false hdata h2
  constructor
  · rw [List.append_assoc]
    have hb : endswith (stem ++ ".py") ".py" = true := endswith_append _ _
    have hdata2 : (stem ++ ".py").data = a :: (l ++ ('.' :: 'p' :: 'y' :: [])) := by
      rw [String.data_append, hdata]
      rfl
    have hhead : startswithParent (dirs ++ [stem ++ ".py"]) = false := by
      cases dirs with
      | nil =>
        rw [List.nil_append, startswithParent_cons]
        exact startswith_dotdot_false hdata2 ha
      | cons d ds =>
        rw [List.cons_append, startswithParent_cons]
        exact hdirs d (List.mem_cons_self _ _)
    rw [get_module_name_concat root dirs _ hb hhead]
    have hne2 : (stem ++ ".py") ≠ "__init__.py" := by
      intro he
      apply h3
      apply String.ext
      have hdq : stem.data ++ (".py" : String).data =
          ("__init__" : String).data ++ (".py" : String).data := by
        rw [← String.data_append, he]
        rfl
      exact List.append_cancel_right hdq
    have hbne : ((stem ++ ".py") != "__init__.py") = true := bne_iff_ne.mpr hne2
    rw [hbne, if_pos rfl, splitext_concat stem h1 h2]
  · rw [List.append_assoc]
    have hb : endswith "__init__.py" ".py" = true := by decide
    have hhead : startswithParent (dirs ++ ["__init__.py"]) = false := by
      cases dirs with
      | nil => decide
      | cons d ds =>
        rw [List.cons_append, startswithParent_cons]
        exact hdirs d (List.mem_cons_self _ _)
    rw [get_module_name_concat root dirs _ hb hhead]
    simp

theorem claim_C3_module_name_mapping_witness :
    get_module_name
        (["path", "to", "myproject"] ++ ["mypackage", "subpackage"] ++ ["module" ++ ".py"])
        ["path", "to", "myproject"] =
      some (String.intercalate "."
        ((["mypackage", "subpackage"].filter
            (fun part => (part != "") && (!(startswith part ".")))) ++ ["module"])) :=
  (claim_C3_module_name_mapping ["path", "to", "myproject"] ["mypackage", "subpackage"]
    "module" (by decide) (by decide) (by decide) (by decide)).1

/-- C10: `_get_module_name` returns `None` in exactly two cases — a filename
not ending in `.py`, or a relative path from the project root that starts
with `".."` — and `run` then yields no `IMP001` diagnostics; when a name is
returned, it is built from the relative directory components with empty and
dot-prefixed ones omitted (plus the basename's stem unless it is
`__init__.py`). -/
theorem claim_C10_module_name_none_cases (filename project_root : List String)
    (report : MockReport) :
    (get_module_name filename project_root = none ↔
      (endswith (lastComponent filename) ".py" = false ∨
       startswithParent (relpath filename project_root) = true)) ∧
    (get_module_name filename project_root = none →
      run_yields filename project_root report = []) ∧
    (∀ s, get_module_name filename project_root = some s →
      s = String.intercalate "."
        (((relpath filename project_root).dropLast.filter
            (fun part => (part != "") && (!(startswith part ".")))) ++
         (if lastComponent filename != "__init__.py"
          then [(splitext (lastComponent filename)).1] else []))) := by
  by_cases hpy : endswith (lastComponent filename) ".py" = false
  · refine ⟨by simp [get_module_name, hpy], ?_, ?_⟩
    · intro _
      simp [run_yields, hpy]
    · intro s hs
      simp [get_module_name, hpy] at hs
  · have hpy' : endswith (lastComponent filename) ".py" = true := by
      cases hv : endswith (lastComponent filename) ".py"
      · exact absurd hv hpy
      · rfl
    by_cases hpar : startswithParent (relpath filename project_root) = true
    · refine ⟨by simp [get_module_name, hpy', hpar], ?_, ?_⟩
      · intro hnone
        simp [run_yields, hpy', hnone]
      · intro s hs
        simp [get_module_name, hpy', hpar] at hs
    · have hpar' : startswithParent (relpath filename project_root) = false :=
        ne_true_eq_false hpar
      refine ⟨by simp [get_module_name, hpy', hpar'], ?_, ?_⟩
      · intro hnone
        simp [get_module_name, hpy', hpar'] at hnone
      · intro s hs
        simp only [get_module_name, hpy', hpar', Bool.true_eq_false,
          Bool.false_eq_true, if_false, Option.some.injEq] at hs
        rw [← hs]
        by_cases hbi : lastComponent filename = "__init__.py"
        · have : (lastComponent filename != "__init__.py") = false := by
            simp [hbi]
          rw [this, if_neg Bool.false_ne_true, if_neg Bool.false_ne_true, List.append_nil]
        · have hbne : (lastComponent filename != "__init__.py") = true := bne_iff_ne.mpr hbi
          rw [hbne, if_pos rfl, if_pos rfl]

/-! ## Decimal rendering and the regex round-trip -/

theorem digitChar_facts : ∀ r < 10,
    (Nat.digitChar r).isDigit = true ∧ digitVal (Nat.digitChar r) = r ∧
    Nat.digitChar r ≠ '(' ∧ Nat.digitChar r ≠ ')' := by decide

theorem digitsToNat_append_digit (xs : List Char) (c : Char) :
    digitsToNat (xs ++ [c]) = 10 * digitsToNat xs + digitVal c := by
  unfold digitsToNat
  rw [List.foldl_append]
  rfl

theorem natDecimalAux_correct : ∀ fuel n, n ≤ fuel →
    digitsToNat (natDecimalAux fuel n) = n := by
  intro fuel
  induction fuel with
  | zero =>
    intro n hn
    have : n = 0 := Nat.le_zero.mp hn
    subst this
    rfl
  | succ f ih =>
    intro n hn
    match n with
    | 0 => rfl
    | m + 1 =>
      show digitsToNat (natDecimalAux f ((m + 1) / 10) ++ [Nat.digitChar ((m + 1) % 10)]) = m + 1
      rw [digitsToNat_append_digit]
      have hq : (m + 1) / 10 ≤ f := by
        have hlt : (m + 1) / 10 < m + 1 := Nat.div_lt_self (Nat.succ_pos m) (by norm_num)
        omega
      rw [ih _ hq]
      have hr : (m + 1) % 10 < 10 := Nat.mod_lt _ (by norm_num)
      rw [(digitChar_facts _ hr).2.1]
      omega

theorem natDecimalAux_digits : ∀ fuel n, ∀ c ∈ natDecimalAux fuel n, c.isDigit = true := by
  intro fuel
  induction fuel with
  | zero =>
    intro n c hc
    simp [natDecimalAux] at hc
  | succ f ih =>
    intro n c hc
    match n with
    | 0 => simp [natDecimalAux] at hc
    | m + 1 =>
      have hstep : natDecimalAux (f + 1) (m + 1) =
          natDecimalAux f ((m + 1) / 10) ++ [Nat.digitChar ((m + 1) % 10)] := rfl
      rw [hstep] at hc
      rcases List.mem_append.mp hc with h | h
      · exact ih _ _ h
      · have hr : (m + 1) % 10 < 10 := Nat.mod_lt _ (by norm_num)
        rw [List.mem_singleton.mp h]
        exact (digitChar_facts _ hr).1

theorem natDecimal_correct (n : Nat) : digitsToNat (natDecimal n) = n := by
  unfold natDecimal
  by_cases h : n = 0
  · subst h
    rfl
  · rw [if_neg h]
    exact natDecimalAux_correct n n (Nat.le_refl n)

theorem natDecimal_digits (n : Nat) : ∀ c ∈ natDecimal n, c.isDigit = true := by
  unfold natDecimal
  by_cases h : n = 0
  · subst h
    intro c hc
    simp at hc
    rw [hc]
    rfl
  · rw [if_neg h]
    exact natDecimalAux_digits n n

theorem natDecimal_ne_nil (n : Nat) : natDecimal n ≠ [] := by
  unfold natDecimal
  by_cases h : n = 0
  · subst h
    simp
  · rw [if_neg h]
    match n, h with
    | m + 1, _ =>
      show natDecimalAux (m + 1) (m + 1) ≠ []
      have hstep : natDecimalAux (m + 1) (m + 1) =
          natDecimalAux m ((m + 1) / 10) ++ [Nat.digitChar ((m + 1) % 10)] := rfl
      rw [hstep]
      simp

theorem takeWhile_all_append (p : Char → Bool) (xs : List Char) (y : Char) (ys : List Char)
    (hx : ∀ c ∈ xs, p c = true) (hy : p y = false) :
    (xs ++ y :: ys).takeWhile p = xs := by
  induction xs with
  | nil => simp [List.takeWhile_cons, hy]
  | cons a l ih =>
    have hpa : p a = true := hx a (List.mem_cons_self _ _)
    have hrest := ih (fun c hc => hx c (List.mem_cons_of_mem _ hc))
    rw [List.cons_append, List.takeWhile_cons, hpa, hrest]
    simp

theorem matchLineAt_ne {c : Char} (cs : List Char) (hc : c ≠ '(') :
    matchLineAt (c :: cs) = none := by
  cases cs with
  | nil => rfl
  | cons c2 cs2 =>
    cases cs2 with
    | nil => rfl
    | cons c3 rest =>
      simp only [matchLineAt]
      rw [if_neg]
      intro hand
      exact hc hand.1

theorem searchLine_skip (cs rest : List Char) (h : ∀ c ∈ cs, c ≠ '(') :
    searchLine (cs ++ rest) = searchLine rest := by
  induction cs with
  | nil => rfl
  | cons c l ih =>
    rw [List.cons_append]
    show (match matchLineAt (c :: (l ++ rest)) with
          | some n => some n
          | none => searchLine (l ++ rest)) = searchLine rest
    rw [matchLineAt_ne _ (h c (List.mem_cons_self _ _))]
    exact ih (fun x hx => h x (List.mem_cons_of_mem _ hx))

theorem matchLineAt_hit (ds tail : List Char)
    (hds : ∀ c ∈ ds, c.isDigit = true) (hne : ds ≠ []) :
    matchLineAt ('(' :: 'l' :: '.' :: (ds ++ ')' :: tail)) = some (digitsToNat ds) := by
  simp only [matchLineAt]
  rw [if_pos (by simp)]
  rw [takeWhile_all_append _ ds ')' tail hds (by decide)]
  have hemp : ds.isEmpty = false := by
    cases ds with
    | nil => exact absurd rfl hne
    | cons a l => rfl
  rw [hemp, if_neg Bool.false_ne_true, List.drop_left]
  simp

theorem searchLine_hit (ds tail : List Char)
    (hds : ∀ c ∈ ds, c.isDigit = true) (hne : ds ≠ []) :
    searchLine ('(' :: 'l' :: '.' :: (ds ++ ')' :: tail)) = some (digitsToNat ds) := by
  show (match matchLineAt ('(' :: 'l' :: '.' :: (ds ++ ')' :: tail)) with
        | some n => some n
        | none => searchLine ('l' :: '.' :: (ds ++ ')' :: tail))) = some (digitsToNat ds)
  rw [matchLineAt_hit ds tail hds hne]

theorem matchImportedAt_ne {c : Char} (cs : List Char) (hc : c ≠ '-') :
    matchImportedAt (c :: cs) = none := by
  cases cs with
  | nil => rfl
  | cons c2 cs2 =>
    cases cs2 with
    | nil => rfl
    | cons c3 rest =>
      simp only [matchImportedAt]
      rw [if_neg]
      intro hand
      exact hc hand.1

theorem searchImported_skip (cs rest : List Char) (h : ∀ c ∈ cs, c ≠ '-') :
    searchImported (cs ++ rest) = searchImported rest := by
  induction cs with
  | nil => rfl
  | cons c l ih =>
    rw [List.cons_append]
    show (match matchImportedAt (c :: (l ++ rest)) with
          | some w => some w
          | none => searchImported (l ++ rest)) = searchImported rest
    rw [matchImportedAt_ne _ (h c (List.mem_cons_self _ _))]
    exact ih (fun x hx => h x (List.mem_cons_of_mem _ hx))

theorem searchImported_hit (ws : List Char) (y : Char) (tail : List Char)
    (hws : ∀ c ∈ ws, isWordDot c = true) (hne : ws ≠ []) (hy : isWordDot y = false) :
    searchImported ('-' :: '>' :: ' ' :: (ws ++ y :: tail)) = some ws := by
  have hmatch : matchImportedAt ('-' :: '>' :: ' ' :: (ws ++ y :: tail)) = some ws := by
    simp only [matchImportedAt]
    rw [if_pos (by simp)]
    rw [takeWhile_all_append _ ws y tail hws hy]
    have hemp : ws.isEmpty = false := by
      cases ws with
      | nil => exact absurd rfl hne
      | cons a l => rfl
    rw [hemp, if_neg Bool.false_ne_true]
  show (match matchImportedAt ('-' :: '>' :: ' ' :: (ws ++ y :: tail)) with
        | some w => some w
        | none => searchImported ('>' :: ' ' :: (ws ++ y :: tail))) = some ws
  rw [hmatch]

theorem isWordDot_ne_special {c : Char} (h : isWordDot c = true) :
    c ≠ '(' ∧ c ≠ '-' := by
  constructor
  · intro hc
    rw [hc] at h
    exact absurd h (by decide)
  · intro hc
    rw [hc] at h
    exact absurd h (by decide)

/-- C8: round-trip through the string representation.  A violation built
from a dotted importer, a dotted imported name and a positive line number is
rendered by `MockViolation.__str__` as `"<importer> -> <imported>
(l.<line>)"`; the plugin's regexes recover exactly that line number and that
imported name, and the string-fallback branch of `_extract_violations`
emits `(line, "Forbidden import of <imported>")` when the queried module
equals the importer (the violation below carries no attributes, so only the
fallback branch can fire). -/
theorem claim_C8_string_roundtrip (imp imd : String) (n : Nat)
    (h1 : ∀ c ∈ imp.data, isWordDot c = true)
    (h2 : ∀ c ∈ imd.data, isWordDot c = true)
    (h3 : imd ≠ "") (h4 : 0 < n) :
    regexSearchLineNum (MockViolation.strOf ⟨imp, imd, n⟩) = some n ∧
    regexSearchImported (MockViolation.strOf ⟨imp, imd, n⟩) = some imd ∧
    processViolation imp
        ⟨none, none, none, none, none, none, MockViolation.strOf ⟨imp, imd, n⟩⟩ =
      [(n, "Forbidden import of " ++ imd)] := by
  have e1 : (" -> " : String).data = ' ' :: '-' :: '>' :: ' ' :: [] := rfl
  have e2 : (" (l." : String).data = ' ' :: '(' :: 'l' :: '.' :: [] := rfl
  have e3 : (")" : String).data = ')' :: [] := rfl
  have e4 : (String.mk (natDecimal n)).data = natDecimal n := rfl
  have hdata1 : (MockViolation.strOf ⟨imp, imd, n⟩).data =
      (imp.data ++ (' ' :: '-' :: '>' :: ' ' :: (imd.data ++ [' ']))) ++
      ('(' :: 'l' :: '.' :: (natDecimal n ++ ')' :: [])) := by
    simp [MockViolation.strOf, String.data_append, e1, e2, e3, e4]
  have himp' : ∀ c ∈ imp.data, c ≠ '(' := fun c hc => (isWordDot_ne_special (h1 c hc)).1
  have himd' : ∀ c ∈ imd.data, c ≠ '(' := fun c hc => (isWordDot_ne_special (h2 c hc)).1
  have hline : regexSearchLineNum (MockViolation.strOf ⟨imp, imd, n⟩) = some n := by
    unfold regexSearchLineNum
    rw [hdata1, searchLine_skip, searchLine_hit (natDecimal n) []
      (natDecimal_digits n) (natDecimal_ne_nil n), natDecimal_correct]
    intro c hc
    rcases List.mem_append.mp hc with h | h
    · exact himp' c h
    · simp only [List.mem_cons] at h
      rcases h with rfl | rfl | rfl | rfl | h
      · decide
      · decide
      · decide
      · decide
      · rcases List.mem_append.mp h with hm | hm
        · exact himd' c hm
        · rw [List.mem_singleton.mp hm]
          decide
  have hdata2 : (MockViolation.strOf ⟨imp, imd, n⟩).data =
      (imp.data ++ [' ']) ++
      ('-' :: '>' :: ' ' ::
        (imd.data ++ ' ' :: ('(' :: 'l' :: '.' :: (natDecimal n ++ ')' :: [])))) := by
    rw [hdata1]
    simp
  have himported : regexSearchImported (MockViolation.strOf ⟨imp, imd, n⟩) = some imd := by
    unfold regexSearchImported
    have hskip : ∀ c ∈ imp.data ++ [' '], c ≠ '-' := by
      intro c hc
      rcases List.mem_append.mp hc with h | h
      · exact (isWordDot_ne_special (h1 c h)).2
      · rw [List.mem_singleton.mp h]
        decide
    rw [hdata2, searchImported_skip _ _ hskip, searchImported_hit imd.data ' ' _
      h2 (data_ne_nil_of_ne_empty h3) (by decide)]
    rfl
  refine ⟨hline, himported, ?_⟩
  have hsw : startswith (MockViolation.strOf ⟨imp, imd, n⟩) (imp ++ " ->") = true := by
    apply startswith_append_of_prefix
    refine ⟨' ' :: (imd.data ++ ' ' :: ('(' :: 'l' :: '.' :: (natDecimal n ++ ')' :: []))), ?_⟩
    have e5 : ((imp ++ " ->") : String).data = imp.data ++ (' ' :: '-' :: '>' :: []) := by
      rw [String.data_append]
    rw [e5, hdata2]
    simp
  show fallbackEntries imp
      ⟨none, none, none, none, none, none, MockViolation.strOf ⟨imp, imd, n⟩⟩ = _
  unfold fallbackEntries
  rw [hsw, if_pos rfl]
  show (match regexSearchLineNum (MockViolation.strOf ⟨imp, imd, n⟩) with
        | some ln =>
          [(ln, "Forbidden import of " ++
            (match regexSearchImported (MockViolation.strOf ⟨imp, imd, n⟩) with
             | some w => w
             | none => "unknown module"))]
        | none => []) = [(n, "Forbidden import of " ++ imd)]
  rw [hline, himported]

theorem claim_C8_string_roundtrip_witness :
    regexSearchLineNum (MockViolation.strOf ⟨"mypackage.module", "forbidden.module", 10⟩) =
        some 10 ∧
    regexSearchImported (MockViolation.strOf ⟨"mypackage.module", "forbidden.module", 10⟩) =
        some "forbidden.module" ∧
    processViolation "mypackage.module"
        ⟨none, none, none, none, none, none,
         MockViolation.strOf ⟨"mypackage.module", "forbidden.module", 10⟩⟩ =
      [(10, "Forbidden import of " ++ "forbidden.module")] :=
  claim_C8_string_roundtrip "mypackage.module" "forbidden.module" 10
    (by decide) (by decide) (by decide) (by decide)
